import Mathlib

/-!
Shallow embedding of `srml/support/src/storage/storage_vec_hashed.rs`:
the `StorageVec` trait, an indexed-collection abstraction over a hashed
key-value store.

Keys in the real code are `twox_128(PREFIX ++ encode(suffix))` where the
suffix is either the SCALE encoding of a `u32` index (4 little-endian
bytes, via `to_keyed_vec`) or the literal bytes `b"len"`.  The hash and
the codec are external collaborators (assumed injective / reversible by
the spec), so the store is modelled at the granularity of the derived
pre-hash keys of one collection: a partial map from element index to a
stored value, plus the dedicated length slot.  The byte-level key
derivation itself is modelled separately (`encode_u32`, `elemKey`,
`lenKey`) so its injectivity can be proved over actual byte lists.

Machine integers: the counter is a `u32`; we use `Nat` with explicit
`% 2^32` where the Rust code performs unchecked wrapping arithmetic
(`len + 1` in `push`), and an explicit checked-add failure (`Option`)
where the code calls `checked_add(...).expect(...)` (`set_items`).
-/

namespace StorageVec

/-- Modulus of the `u32` counter type: 2^32. -/
def U32_MOD : Nat := 4294967296

/-- Largest representable `u32` value: 2^32 - 1. -/
def U32_MAX : Nat := 4294967295

/-! ## Byte-level key derivation

`to_keyed_vec(PREFIX)` prepends the prefix to the SCALE encoding of the
value.  For a `u32` index the encoding is the 4 little-endian bytes; for
the length sentinel it is the 3 raw bytes of `b"len"`. -/

/-- SCALE encoding of a `u32`: four little-endian bytes. -/
def encode_u32 (n : Nat) : List Nat :=
  [n % 256, n / 256 % 256, n / 65536 % 256, n / 16777216 % 256]

/-- Pre-hash key of the element slot at `i`: `PREFIX ++ encode(i)`
(`i.to_keyed_vec(Self::PREFIX)` in the source). -/
def elemKey (pre : List Nat) (i : Nat) : List Nat := pre ++ encode_u32 i

/-- Pre-hash key of the length slot: `PREFIX ++ b"len"`
(`b"len".to_keyed_vec(Self::PREFIX)` in the source; `l`,`e`,`n` are
bytes 108, 101, 110). -/
def lenKey (pre : List Nat) : List Nat := pre ++ [108, 101, 110]

/-! ## The store, restricted to one collection's keys -/

/-- The slots of one `StorageVec` collection inside the hashed key-value
store: one optional stored value per element index (key
`twox_128(PREFIX ++ encode_u32 i)`) and the optional stored counter
(key `twox_128(PREFIX ++ b"len")`).  `none` is physical absence of the
key. -/
@[ext]
structure Store (α : Type) where
  elems : Nat → Option α
  lenSlot : Option Nat

variable {α : Type}

/-- A store with no prior writes under the collection's prefix. -/
def emptyStore : Store α := { elems := fun _ => none, lenSlot := none }

/-- `hashed::put` at the element key of index `i`. -/
def putElem (s : Store α) (i : Nat) (v : α) : Store α :=
  { s with elems := fun j => if j = i then some v else s.elems j }

/-- `hashed::kill` at the element key of index `i`. -/
def killElem (s : Store α) (i : Nat) : Store α :=
  { s with elems := fun j => if j = i then none else s.elems j }

/-- `fn count() -> u32`: `hashed::get_or_default` at the length key. -/
def count (s : Store α) : Nat := s.lenSlot.getD 0

/-- `fn item(index: u32) -> Self::Item`: `hashed::get_or_default` at the
element key. -/
def item [Inhabited α] (s : Store α) (i : Nat) : α := (s.elems i).getD default

/-- `fn set_item(index: u32, item: &Self::Item)`: writes only when
`index < Self::count()`. -/
def set_item (s : Store α) (i : Nat) (v : α) : Store α :=
  if i < count s then putElem s i v else s

/-- `fn clear_item(index: u32)`: kills the key only when
`index < Self::count()`. -/
def clear_item (s : Store α) (i : Nat) : Store α :=
  if i < count s then killElem s i else s

/-- `fn set_count(count: u32)`: `(count..Self::count()).for_each(Self::clear_item)`
followed by `hashed::put` of the new counter at the length key.  The
`for_each` over the half-open `u32` range is a left fold of `clear_item`
over `[c, c+1, ..., old-1]`; `clear_item` re-reads `Self::count()`, which
is unchanged until the final put. -/
def set_count (s : Store α) (c : Nat) : Store α :=
  let s1 := (List.range' c (count s - c)).foldl clear_item s
  { s1 with lenSlot := some c }

/-- `fn push(item: &Self::Item)`: reads the count, puts the value at that
index, then `set_count(len + 1)`.  The addition is the unchecked `u32`
`+`, hence the explicit wrap modulo 2^32. -/
def push (s : Store α) (v : α) : Store α :=
  let len := count s
  let s1 := putElem s len v
  set_count s1 ((len + 1) % U32_MOD)

/-- `fn items() -> Vec<Self::Item>`: `(0..Self::count()).map(Self::item)`. -/
def items [Inhabited α] (s : Store α) : List α :=
  (List.range (count s)).map (item s)

/-- Loop body of `fn set_items`: for each input element, `hashed::put` at
the running counter's element key, then `count.checked_add(1).expect(...)`
— `checked_add` returns `None` (a fatal `expect` panic, modelled as the
`none` outcome) exactly when the counter is `u32::MAX`. -/
def set_items_loop (s : Store α) (c : Nat) : List α → Option (Store α × Nat)
  | [] => some (s, c)
  | v :: rest =>
    let s1 := putElem s c v
    if c = U32_MAX then none else set_items_loop s1 (c + 1) rest

/-- `fn set_items<I>(items: I)`: run the put-and-count loop from counter
0, then `set_count` with the final counter. -/
def set_items (s : Store α) (seq : List α) : Option (Store α) :=
  (set_items_loop s 0 seq).map (fun p => set_count p.1 p.2)

/-- Repeated `push` of a sequence of values, in order. -/
def pushAll (s : Store α) (seq : List α) : Store α := seq.foldl push s

/-- States reachable from the empty store by finite sequences of the
exposed operations, with every `u32` argument in range.  `push` is
unrestricted: at `count() = u32::MAX` the code's unchecked add wraps. -/
inductive Reach : Store α → Prop where
  | base : Reach emptyStore
  | step_set_item (s : Store α) (i : Nat) (v : α) :
      Reach s → i < U32_MOD → Reach (set_item s i v)
  | step_clear_item (s : Store α) (i : Nat) :
      Reach s → i < U32_MOD → Reach (clear_item s i)
  | step_push (s : Store α) (v : α) : Reach s → Reach (push s v)
  | step_set_count (s : Store α) (c : Nat) :
      Reach s → c < U32_MOD → Reach (set_count s c)
  | step_set_items (s t : Store α) (seq : List α) :
      Reach s → set_items s seq = some t → Reach t

/-- States reachable as in `Reach`, except that `push` is never invoked
while `count() = u32::MAX` (the counter-wrap case). -/
inductive ReachSafe : Store α → Prop where
  | base : ReachSafe emptyStore
  | step_set_item (s : Store α) (i : Nat) (v : α) :
      ReachSafe s → i < U32_MOD → ReachSafe (set_item s i v)
  | step_clear_item (s : Store α) (i : Nat) :
      ReachSafe s → i < U32_MOD → ReachSafe (clear_item s i)
  | step_push (s : Store α) (v : α) :
      ReachSafe s → count s ≠ U32_MAX → ReachSafe (push s v)
  | step_set_count (s : Store α) (c : Nat) :
      ReachSafe s → c < U32_MOD → ReachSafe (set_count s c)
  | step_set_items (s t : Store α) (seq : List α) :
      ReachSafe s → set_items s seq = some t → ReachSafe t

/-! ## Basic lemmas about the operations -/

theorem count_emptyStore : count (emptyStore : Store α) = 0 := rfl

theorem putElem_lenSlot (s : Store α) (i : Nat) (v : α) :
    (putElem s i v).lenSlot = s.lenSlot := rfl

theorem putElem_elems (s : Store α) (i : Nat) (v : α) (j : Nat) :
    (putElem s i v).elems j = if j = i then some v else s.elems j := rfl

theorem count_putElem (s : Store α) (i : Nat) (v : α) :
    count (putElem s i v) = count s := rfl

theorem clear_item_lenSlot (s : Store α) (i : Nat) :
    (clear_item s i).lenSlot = s.lenSlot := by
  unfold clear_item killElem
  split <;> rfl

theorem count_clear_item (s : Store α) (i : Nat) :
    count (clear_item s i) = count s := by
  unfold count
  rw [clear_item_lenSlot]

theorem clear_item_elems (s : Store α) (i j : Nat) :
    (clear_item s i).elems j =
      if i < count s ∧ j = i then none else s.elems j := by
  unfold clear_item killElem
  by_cases h1 : i < count s
  · rw [if_pos h1]
    by_cases h2 : j = i
    · rw [if_pos ⟨h1, h2⟩]
      simp [h2]
    · rw [if_neg (by tauto)]
      simp [h2]
  · rw [if_neg h1, if_neg (by tauto)]

theorem set_item_lenSlot (s : Store α) (i : Nat) (v : α) :
    (set_item s i v).lenSlot = s.lenSlot := by
  unfold set_item putElem
  split <;> rfl

theorem count_set_item (s : Store α) (i : Nat) (v : α) :
    count (set_item s i v) = count s := by
  unfold count
  rw [set_item_lenSlot]

theorem set_item_elems (s : Store α) (i : Nat) (v : α) (j : Nat) :
    (set_item s i v).elems j =
      if i < count s ∧ j = i then some v else s.elems j := by
  unfold set_item putElem
  by_cases h1 : i < count s
  · rw [if_pos h1]
    by_cases h2 : j = i
    · rw [if_pos ⟨h1, h2⟩]
      simp [h2]
    · rw [if_neg (by tauto)]
      simp [h2]
  · rw [if_neg h1, if_neg (by tauto)]

theorem foldl_clear_lenSlot (s : Store α) (a n : Nat) :
    ((List.range' a n).foldl clear_item s).lenSlot = s.lenSlot := by
  induction n generalizing a s with
  | zero => rfl
  | succ n ih =>
    rw [List.range'_succ, List.foldl_cons, ih, clear_item_lenSlot]

theorem foldl_clear_elems (s : Store α) (a n j : Nat) :
    ((List.range' a n).foldl clear_item s).elems j =
      if a ≤ j ∧ j < a + n ∧ j < count s then none else s.elems j := by
  induction n generalizing a s with
  | zero =>
    rw [List.range'_zero, List.foldl_nil, if_neg (by omega)]
  | succ n ih =>
    rw [List.range'_succ, List.foldl_cons, ih, count_clear_item,
      clear_item_elems]
    by_cases h1 : a ≤ j ∧ j < a + (n + 1) ∧ j < count s
    · rw [if_pos h1]
      by_cases h2 : a + 1 ≤ j ∧ j < a + 1 + n ∧ j < count s
      · rw [if_pos h2]
      · rw [if_neg h2, if_pos ⟨by omega, by omega⟩]
    · rw [if_neg h1, if_neg (by omega), if_neg (by omega)]

theorem set_count_lenSlot (s : Store α) (c : Nat) :
    (set_count s c).lenSlot = some c := rfl

theorem count_set_count (s : Store α) (c : Nat) :
    count (set_count s c) = c := rfl

theorem set_count_elems (s : Store α) (c j : Nat) :
    (set_count s c).elems j =
      if c ≤ j ∧ j < count s then none else s.elems j := by
  show ((List.range' c (count s - c)).foldl clear_item s).elems j = _
  rw [foldl_clear_elems]
  by_cases h : c ≤ j ∧ j < count s
  · rw [if_pos ⟨h.1, by omega, h.2⟩, if_pos h]
  · rw [if_neg (by omega), if_neg h]

theorem count_push (s : Store α) (v : α) (h : count s < U32_MAX) :
    count (push s v) = count s + 1 := by
  show count (set_count _ _) = _
  rw [count_set_count, Nat.mod_eq_of_lt]
  have : U32_MAX < U32_MOD := by decide
  omega

theorem push_elems (s : Store α) (v : α) (j : Nat) (h : count s < U32_MAX) :
    (push s v).elems j = if j = count s then some v else s.elems j := by
  show (set_count (putElem s (count s) v) ((count s + 1) % U32_MOD)).elems j = _
  rw [set_count_elems, count_putElem, putElem_elems]
  have hm : (count s + 1) % U32_MOD = count s + 1 := by
    have : U32_MAX < U32_MOD := by decide
    exact Nat.mod_eq_of_lt (by omega)
  rw [hm, if_neg (by omega)]

theorem set_items_loop_eq_none (s : Store α) (c : Nat) (seq : List α)
    (h : c ≤ U32_MAX) :
    set_items_loop s c seq = none ↔ U32_MAX < c + seq.length := by
  induction seq generalizing s c with
  | nil =>
    simp only [set_items_loop, List.length_nil]
    constructor
    · intro hx
      exact absurd hx (by simp)
    · omega
  | cons v rest ih =>
    simp only [set_items_loop, List.length_cons]
    by_cases hc : c = U32_MAX
    · rw [if_pos hc]
      constructor
      · intro
        omega
      · intro
        rfl
    · rw [if_neg hc, ih _ _ (by omega)]
      omega

theorem set_items_loop_eq_some (s : Store α) (c : Nat) (seq : List α)
    (h : c + seq.length ≤ U32_MAX) :
    ∃ t n, set_items_loop s c seq = some (t, n) ∧ n = c + seq.length ∧
      t.lenSlot = s.lenSlot ∧
      ∀ j, t.elems j =
        if c ≤ j ∧ j < c + seq.length then seq[j - c]?
        else s.elems j := by
  induction seq generalizing s c with
  | nil =>
    refine ⟨s, c, rfl, by simp, rfl, fun j => ?_⟩
    rw [if_neg (by simp only [List.length_nil]; omega)]
  | cons v rest ih =>
    have hc : c ≠ U32_MAX := by
      simp only [List.length_cons] at h
      omega
    obtain ⟨t, n, heq, hn, hlen, helems⟩ :=
      ih (putElem s c v) (c + 1) (by simp at h ⊢; omega)
    refine ⟨t, n, ?_, by simp at hn ⊢; omega, by rw [hlen]; rfl, fun j => ?_⟩
    · simp only [set_items_loop, if_neg hc]
      exact heq
    · rw [helems, putElem_elems]
      simp only [List.length_cons]
      by_cases h1 : c ≤ j ∧ j < c + (rest.length + 1)
      · rw [if_pos h1]
        by_cases h2 : c + 1 ≤ j
        · rw [if_pos ⟨h2, by omega⟩]
          have hsub : j - c = (j - (c + 1)) + 1 := by omega
          rw [hsub, List.getElem?_cons_succ]
        · have hj : j = c := by omega
          rw [if_neg (by omega), if_pos hj, hj]
          simp
      · rw [if_neg h1, if_neg (by omega), if_neg (by omega)]

theorem set_items_eq_none (s : Store α) (seq : List α) :
    set_items s seq = none ↔ U32_MAX < seq.length := by
  unfold set_items
  rw [Option.map_eq_none', set_items_loop_eq_none s 0 seq (by omega)]
  omega

theorem set_items_eq_some (s : Store α) (seq : List α)
    (h : seq.length ≤ U32_MAX) :
    ∃ t, set_items s seq = some t ∧ t.lenSlot = some seq.length ∧
      ∀ j, t.elems j =
        if seq.length ≤ j ∧ j < count s then none
        else if j < seq.length then seq[j]?
        else s.elems j := by
  obtain ⟨t0, n, heq, hn, hlen, helems⟩ :=
    set_items_loop_eq_some s 0 seq (by omega)
  subst hn
  refine ⟨set_count t0 (0 + seq.length), ?_, ?_, fun j => ?_⟩
  · unfold set_items
    rw [heq]
    rfl
  · rw [set_count_lenSlot]
    simp
  · rw [set_count_elems, helems]
    have hcount : count t0 = count s := by
      unfold count
      rw [hlen]
    rw [hcount]
    by_cases h1 : seq.length ≤ j ∧ j < count s
    · rw [if_pos (by omega), if_pos h1]
    · rw [if_neg (by omega), if_neg h1]
      by_cases h2 : j < seq.length
      · rw [if_pos ⟨by omega, by omega⟩, if_pos h2]
        simp
      · rw [if_neg (by omega), if_neg h2]

theorem count_pushAll (s : Store α) (seq : List α)
    (h : count s + seq.length ≤ U32_MAX) :
    count (pushAll s seq) = count s + seq.length := by
  induction seq generalizing s with
  | nil => simp [pushAll]
  | cons v rest ih =>
    show count (pushAll (push s v) rest) = _
    simp only [List.length_cons] at h
    rw [ih (push s v) (by rw [count_push s v (by omega)]; omega),
      count_push s v (by omega)]
    simp only [List.length_cons]
    omega

theorem pushAll_elems (s : Store α) (seq : List α) (j : Nat)
    (h : count s + seq.length ≤ U32_MAX) :
    (pushAll s seq).elems j =
      if count s ≤ j ∧ j < count s + seq.length then
        seq[j - count s]?
      else s.elems j := by
  induction seq generalizing s with
  | nil =>
    show s.elems j = _
    rw [if_neg (by simp only [List.length_nil]; omega)]
  | cons v rest ih =>
    show (pushAll (push s v) rest).elems j = _
    simp only [List.length_cons] at h
    have hlt : count s < U32_MAX := by omega
    have hc : count (push s v) = count s + 1 := count_push s v hlt
    rw [ih (push s v) (by rw [hc]; omega), hc, push_elems s v j hlt]
    simp only [List.length_cons]
    by_cases h1 : count s ≤ j ∧ j < count s + (rest.length + 1)
    · rw [if_pos h1]
      by_cases h2 : count s + 1 ≤ j
      · rw [if_pos ⟨h2, by omega⟩]
        have hsub : j - count s = (j - (count s + 1)) + 1 := by omega
        rw [hsub, List.getElem?_cons_succ]
      · have hj : j = count s := by omega
        rw [if_neg (by omega), if_pos hj, hj]
        simp
    · rw [if_neg h1, if_neg (by omega), if_neg (by omega)]

theorem reachSafe_inv (s : Store α) (h : ReachSafe s) :
    count s < U32_MOD ∧ ∀ i, count s ≤ i → s.elems i = none := by
  induction h with
  | base =>
    refine ⟨?_, fun i _ => rfl⟩
    show (0 : Nat) < U32_MOD
    decide
  | step_set_item s i v _ hi ih =>
    obtain ⟨ihm, ihe⟩ := ih
    rw [count_set_item]
    refine ⟨ihm, fun k hk => ?_⟩
    rw [set_item_elems, if_neg (by omega), ihe k hk]
  | step_clear_item s i _ hi ih =>
    obtain ⟨ihm, ihe⟩ := ih
    rw [count_clear_item]
    refine ⟨ihm, fun k hk => ?_⟩
    rw [clear_item_elems]
    by_cases hc : i < count s ∧ k = i
    · rw [if_pos hc]
    · rw [if_neg hc, ihe k hk]
  | step_push s v _ hne ih =>
    obtain ⟨ihm, ihe⟩ := ih
    have hmm : U32_MAX + 1 = U32_MOD := by decide
    have hlt : count s < U32_MAX := by omega
    rw [count_push s v hlt]
    refine ⟨by omega, fun k hk => ?_⟩
    rw [push_elems s v k hlt, if_neg (by omega), ihe k (by omega)]
  | step_set_count s c _ hc ih =>
    obtain ⟨ihm, ihe⟩ := ih
    rw [count_set_count]
    refine ⟨hc, fun k hk => ?_⟩
    rw [set_count_elems]
    by_cases hin : c ≤ k ∧ k < count s
    · rw [if_pos hin]
    · rw [if_neg hin, ihe k (by omega)]
  | step_set_items s t seq _ heq ih =>
    obtain ⟨ihm, ihe⟩ := ih
    have hlen : seq.length ≤ U32_MAX := by
      by_contra hgt
      have hnone : set_items s seq = none :=
        (set_items_eq_none s seq).mpr (by omega)
      rw [heq] at hnone
      exact Option.noConfusion hnone
    obtain ⟨t2, heq2, hlen2, helems2⟩ := set_items_eq_some s seq hlen
    rw [heq] at heq2
    have ht : t = t2 := Option.some.inj heq2
    rw [ht]
    have hcount : count t2 = seq.length := by
      unfold count
      rw [hlen2]
      rfl
    have hmm : U32_MAX < U32_MOD := by decide
    rw [hcount]
    refine ⟨by omega, fun k hk => ?_⟩
    rw [helems2]
    by_cases h1 : seq.length ≤ k ∧ k < count s
    · rw [if_pos h1]
    · rw [if_neg h1, if_neg (by omega), ihe k (by omega)]

theorem encode_u32_inj (i j : Nat) (hi : i < U32_MOD) (hj : j < U32_MOD)
    (h : encode_u32 i = encode_u32 j) : i = j := by
  unfold encode_u32 at h
  simp only [List.cons.injEq, and_true] at h
  have h0 := h.1
  have h1 := h.2.1
  have h2 := h.2.2.1
  have h3 := h.2.2.2
  unfold U32_MOD at hi hj
  omega

theorem elemKey_inj (pre : List Nat) (i j : Nat) (hi : i < U32_MOD)
    (hj : j < U32_MOD) (hij : i ≠ j) : elemKey pre i ≠ elemKey pre j := by
  intro h
  exact hij (encode_u32_inj i j hi hj (List.append_cancel_left h))

theorem lenKey_ne_elemKey (pre : List Nat) (k : Nat) :
    lenKey pre ≠ elemKey pre k := by
  intro h
  have hl := congrArg List.length h
  simp only [lenKey, elemKey, encode_u32, List.length_append,
    List.length_cons, List.length_nil] at hl
  omega

theorem count_push_full :
    count (push (set_count (emptyStore : Store Nat) U32_MAX) 1) = 0 := by
  have h1 : count (push (set_count (emptyStore : Store Nat) U32_MAX) 1)
      = (count (set_count (emptyStore : Store Nat) U32_MAX) + 1) % U32_MOD :=
    rfl
  rw [h1, count_set_count]
  decide

theorem item_push_full :
    item (push (set_count (emptyStore : Store Nat) U32_MAX) 1) U32_MAX = 1 := by
  have hc : count (set_count (emptyStore : Store Nat) U32_MAX) = U32_MAX :=
    count_set_count _ _
  unfold item
  have h2 : (push (set_count (emptyStore : Store Nat) U32_MAX) 1).elems U32_MAX
      = some 1 := by
    show (set_count
        (putElem (set_count (emptyStore : Store Nat) U32_MAX)
          (count (set_count (emptyStore : Store Nat) U32_MAX)) 1)
        ((count (set_count (emptyStore : Store Nat) U32_MAX) + 1)
          % U32_MOD)).elems U32_MAX = some 1
    rw [set_count_elems, count_putElem, hc, if_neg (by omega), putElem_elems,
      if_pos rfl]
  rw [h2]
  rfl

/-! ## Claim theorems -/

/-- Claim C1 (code_bug evidence): at `count() = u32::MAX` the code of
`push` does NOT abort: the unchecked `len + 1` wraps modulo 2^32, so
after `push(1)` on a store whose counter is `u32::MAX` the counter has
silently wrapped to 0 while the value was written at index `u32::MAX`.
This contradicts the claim (and the spec's capacity-exhaustion contract)
that the call fails fatally rather than silently wrapping the counter. -/
theorem claim_C1_push_overflow_wraps :
    count (push (set_count (emptyStore : Store Nat) U32_MAX) 1) = 0 ∧
    item (push (set_count (emptyStore : Store Nat) U32_MAX) 1) U32_MAX = 1 :=
  ⟨count_push_full, item_push_full⟩

/-- Claim C2 (counterexample): the no-slot-at-or-beyond-count invariant
fails on a reachable state.  From the empty store, `set_count(u32::MAX)`
followed by `push(1)` wraps the counter to 0 yet leaves the pushed value
stored at index `u32::MAX`, so `item(u32::MAX)` is 1, not the default 0,
although `count()` is 0. -/
theorem claim_C2_counterexample :
    Reach (push (set_count (emptyStore : Store Nat) U32_MAX) 1) ∧
    count (push (set_count (emptyStore : Store Nat) U32_MAX) 1) = 0 ∧
    item (push (set_count (emptyStore : Store Nat) U32_MAX) 1) U32_MAX ≠
      (default : Nat) := by
  refine ⟨?_, count_push_full, ?_⟩
  · exact Reach.step_push _ 1
      (Reach.step_set_count _ U32_MAX Reach.base (by decide))
  · rw [item_push_full]
    decide

/-- Claim C2 (amended): for every store state reachable from the empty
store by operation sequences in which `push` is never invoked while
`count() = u32::MAX` (the counter-wrap case of C1), no element slot
exists at any index at or beyond `count()`: `item` there returns the
default.  In particular after `set_count(n)` every index `i` with
`n ≤ i < old_count` reads as default, and growing the count back with a
further `set_count(m)` without rewriting still yields the default at
`i`. -/
theorem claim_C2_no_slot_beyond_count [Inhabited α] (s : Store α)
    (h : ReachSafe s) :
    (∀ i, count s ≤ i → item s i = default) ∧
    (∀ n i, n ≤ i → i < count s → item (set_count s n) i = default) ∧
    (∀ n m i, n ≤ i → i < count s →
      item (set_count (set_count s n) m) i = default) := by
  have hkill : ∀ n i, n ≤ i → i < count s → (set_count s n).elems i = none := by
    intro n i h1 h2
    rw [set_count_elems, if_pos ⟨h1, h2⟩]
  refine ⟨fun i hi => ?_, fun n i h1 h2 => ?_, fun n m i h1 h2 => ?_⟩
  · unfold item
    rw [(reachSafe_inv s h).2 i hi]
    rfl
  · unfold item
    rw [hkill n i h1 h2]
    rfl
  · unfold item
    rw [set_count_elems]
    by_cases hc : m ≤ i ∧ i < count (set_count s n)
    · rw [if_pos hc]
      rfl
    · rw [if_neg hc, hkill n i h1 h2]
      rfl

/-- Witness for the amended C2 at a concrete reachable state: one push
on the empty store. -/
theorem claim_C2_no_slot_beyond_count_witness :
    ReachSafe (push (emptyStore : Store Nat) 5) ∧
    ((∀ i, count (push (emptyStore : Store Nat) 5) ≤ i →
        item (push (emptyStore : Store Nat) 5) i = default) ∧
     (∀ n i, n ≤ i → i < count (push (emptyStore : Store Nat) 5) →
        item (set_count (push (emptyStore : Store Nat) 5) n) i = default) ∧
     (∀ n m i, n ≤ i → i < count (push (emptyStore : Store Nat) 5) →
        item (set_count (set_count (push (emptyStore : Store Nat) 5) n) m) i
          = default)) :=
  have hr : ReachSafe (push (emptyStore : Store Nat) 5) :=
    ReachSafe.step_push _ 5 ReachSafe.base (by decide)
  ⟨hr, claim_C2_no_slot_beyond_count _ hr⟩

/-- Claim C3: round-trip through `push` — on any store whose count is
below `u32::MAX`, pushing `v` stores `v` at the old count (readable via
`item`) and increments the count by one. -/
theorem claim_C3_push_round_trip [Inhabited α] (s : Store α) (v : α)
    (h : count s < U32_MAX) :
    item (push s v) (count s) = v ∧ count (push s v) = count s + 1 := by
  refine ⟨?_, count_push s v h⟩
  unfold item
  rw [push_elems s v _ h, if_pos rfl]
  rfl

/-- Witness for C3: push 7 onto the empty store and read it back at
index 0. -/
theorem claim_C3_push_round_trip_witness :
    count (emptyStore : Store Nat) < U32_MAX ∧
    (item (push (emptyStore : Store Nat) 7) (count (emptyStore : Store Nat))
        = 7 ∧
      count (push (emptyStore : Store Nat) 7)
        = count (emptyStore : Store Nat) + 1) :=
  ⟨by decide, claim_C3_push_round_trip emptyStore 7 (by decide)⟩

/-- Claim C5: out-of-range write and clear are silent no-ops — for any
index at or beyond `count()` both `set_item` and `clear_item` return the
store unchanged; in particular (on any state of the abstraction, i.e.
any safely reachable state) `set_item(count(), v)` followed by
`item(count())` still yields the default. -/
theorem claim_C5_out_of_range_noop [Inhabited α] (s : Store α) (i : Nat)
    (v : α) (h : count s ≤ i) :
    set_item s i v = s ∧ clear_item s i = s ∧
    (ReachSafe s → item (set_item s (count s) v) (count s) = default) := by
  refine ⟨?_, ?_, fun hr => ?_⟩
  · unfold set_item
    rw [if_neg (by omega)]
  · unfold clear_item
    rw [if_neg (by omega)]
  · have hno : set_item s (count s) v = s := by
      unfold set_item
      rw [if_neg (by omega)]
    rw [hno]
    unfold item
    rw [(reachSafe_inv s hr).2 (count s) (Nat.le_refl _)]
    rfl

/-- Witness for C5 on the empty store at index 0. -/
theorem claim_C5_out_of_range_noop_witness :
    count (emptyStore : Store Nat) ≤ 0 ∧
    (set_item (emptyStore : Store Nat) 0 3 = emptyStore ∧
      clear_item (emptyStore : Store Nat) 0 = emptyStore ∧
      (ReachSafe (emptyStore : Store Nat) →
        item (set_item (emptyStore : Store Nat)
          (count (emptyStore : Store Nat)) 3)
          (count (emptyStore : Store Nat)) = default)) :=
  ⟨by decide, claim_C5_out_of_range_noop emptyStore 0 3 (by decide)⟩

/-- Claim C6: default-on-absence — on a store with no prior writes under
the collection's prefix, `item(i)` is the element default for every
index `i` (total, never failing) and `count()` is 0. -/
theorem claim_C6_default_on_absence [Inhabited α] (i : Nat) :
    item (emptyStore : Store α) i = default ∧
    count (emptyStore : Store α) = 0 :=
  ⟨rfl, rfl⟩

/-- Claim C4: bulk replace equivalence — for a sequence of length at
most `u32::MAX` and any starting store, `set_items(seq)` succeeds,
`items()` then yields exactly `seq`, and the resulting state is
observably equal (under `count` and `item`) to `set_count(0)` followed
by pushing each element of `seq` in order. -/
theorem claim_C4_bulk_replace [Inhabited α] (s : Store α) (seq : List α)
    (h : seq.length ≤ U32_MAX) :
    ∃ t, set_items s seq = some t ∧ items t = seq ∧
      count t = count (pushAll (set_count s 0) seq) ∧
      ∀ j, item t j = item (pushAll (set_count s 0) seq) j := by
  obtain ⟨t, heq, hlen, helems⟩ := set_items_eq_some s seq h
  have hct : count t = seq.length := by
    unfold count
    rw [hlen]
    rfl
  have h0 : count (set_count s 0) = 0 := count_set_count s 0
  have hcu : count (pushAll (set_count s 0) seq) = seq.length := by
    rw [count_pushAll _ _ (by rw [h0]; omega), h0]
    omega
  have huel : ∀ j, (pushAll (set_count s 0) seq).elems j =
      if j < seq.length then seq[j]? else (set_count s 0).elems j := by
    intro j
    rw [pushAll_elems _ _ j (by rw [h0]; omega), h0]
    by_cases hj : j < seq.length
    · rw [if_pos ⟨Nat.zero_le j, by omega⟩, if_pos hj]
      rfl
    · rw [if_neg (by omega), if_neg hj]
  refine ⟨t, heq, ?_, by rw [hct, hcu], fun j => ?_⟩
  · unfold items
    rw [hct]
    apply List.ext_getElem
    · simp
    · intro n h1 h2
      rw [List.getElem_map, List.getElem_range]
      have hn : n < seq.length := h2
      unfold item
      rw [helems, if_neg (by omega), if_pos hn, List.getElem?_eq_getElem hn]
      rfl
  · unfold item
    rw [helems j, huel j, set_count_elems]
    by_cases hj : j < seq.length
    · rw [if_neg (by omega), if_pos hj, if_pos hj]
    · rw [if_neg hj, if_neg hj]
      by_cases hcs : j < count s
      · rw [if_pos ⟨by omega, hcs⟩, if_pos ⟨Nat.zero_le j, hcs⟩]
      · rw [if_neg (by omega), if_neg (by omega)]

/-- Witness for C4: replacing the contents of the empty store by the
two-element sequence `[3, 4]`. -/
theorem claim_C4_bulk_replace_witness :
    ([3, 4] : List Nat).length ≤ U32_MAX ∧
    (∃ t, set_items (emptyStore : Store Nat) [3, 4] = some t ∧
      items t = [3, 4] ∧
      count t = count (pushAll (set_count (emptyStore : Store Nat) 0) [3, 4]) ∧
      ∀ j, item t j
        = item (pushAll (set_count (emptyStore : Store Nat) 0) [3, 4]) j) :=
  ⟨by decide, claim_C4_bulk_replace emptyStore [3, 4] (by decide)⟩

/-- Claim C7: `set_items` aborts fatally (the checked counter increment
fails) exactly when the input sequence has more than `u32::MAX`
elements; for any sequence of length at most `u32::MAX` the abort
branch is never taken and `set_items` completes. -/
theorem claim_C7_set_items_overflow (s : Store α) (seq : List α) :
    (set_items s seq = none ↔ U32_MAX < seq.length) ∧
    (seq.length ≤ U32_MAX → ∃ t, set_items s seq = some t) := by
  refine ⟨set_items_eq_none s seq, fun h => ?_⟩
  obtain ⟨t, ht, _⟩ := set_items_eq_some s seq h
  exact ⟨t, ht⟩

/-- Claim C8: key derivation is pure and total (it is a function, whose
value is literally `PREFIX ++ encode(index)`), injective on distinct
`u32` indices under the same prefix, and the length-key pre-image
`PREFIX ++ b"len"` differs from every element-key pre-image under the
same prefix. -/
theorem claim_C8_key_derivation (pre : List Nat) (i j : Nat)
    (hi : i < U32_MOD) (hj : j < U32_MOD) (hij : i ≠ j) :
    elemKey pre i = pre ++ encode_u32 i ∧
    elemKey pre i ≠ elemKey pre j ∧
    ∀ k, lenKey pre ≠ elemKey pre k :=
  ⟨rfl, elemKey_inj pre i j hi hj hij, lenKey_ne_elemKey pre⟩

/-- Witness for C8 with the empty prefix and indices 0 and 1. -/
theorem claim_C8_key_derivation_witness :
    (0 : Nat) < U32_MOD ∧ (1 : Nat) < U32_MOD ∧ (0 : Nat) ≠ 1 ∧
    (elemKey [] 0 = [] ++ encode_u32 0 ∧
      elemKey [] 0 ≠ elemKey [] 1 ∧
      ∀ k, lenKey [] ≠ elemKey [] k) :=
  ⟨by decide, by decide, by decide,
    claim_C8_key_derivation [] 0 1 (by decide) (by decide) (by decide)⟩

/-- Claim C9: clearing is idempotent on a valid index — clearing twice
equals clearing once — and `clear_item` never changes `count()` at any
index. -/
theorem claim_C9_clear_idempotent (s : Store α) (i : Nat)
    (h : i < count s) :
    clear_item (clear_item s i) i = clear_item s i ∧
    ∀ j, count (clear_item s j) = count s := by
  refine ⟨?_, fun j => count_clear_item s j⟩
  apply Store.ext
  · funext j
    rw [clear_item_elems (clear_item s i) i j, count_clear_item,
      clear_item_elems s i j]
    by_cases hc : i < count s ∧ j = i
    · rw [if_pos hc, if_pos hc]
    · rw [if_neg hc, if_neg hc]
  · rw [clear_item_lenSlot, clear_item_lenSlot]

/-- Witness for C9 at index 0 of a one-element store. -/
theorem claim_C9_clear_idempotent_witness :
    0 < count (push (emptyStore : Store Nat) 5) ∧
    (clear_item (clear_item (push (emptyStore : Store Nat) 5) 0) 0
        = clear_item (push (emptyStore : Store Nat) 5) 0 ∧
      ∀ j, count (clear_item (push (emptyStore : Store Nat) 5) j)
        = count (push (emptyStore : Store Nat) 5)) :=
  ⟨by decide, claim_C9_clear_idempotent (push emptyStore 5) 0 (by decide)⟩

/-- Claim C10: frame property of in-range writes — `set_item(i, v)` with
`i < count()` sets `item(i)` to `v` and changes neither `count()` nor
`item(j)` for any other index `j`. -/
theorem claim_C10_set_item_frame [Inhabited α] (s : Store α) (i : Nat)
    (v : α) (h : i < count s) :
    item (set_item s i v) i = v ∧
    count (set_item s i v) = count s ∧
    ∀ j, j ≠ i → item (set_item s i v) j = item s j := by
  refine ⟨?_, count_set_item s i v, fun j hj => ?_⟩
  · unfold item
    rw [set_item_elems, if_pos ⟨h, rfl⟩]
    rfl
  · unfold item
    rw [set_item_elems, if_neg (by tauto)]

/-- Witness for C10: overwrite index 0 of a one-element store with 9. -/
theorem claim_C10_set_item_frame_witness :
    0 < count (push (emptyStore : Store Nat) 3) ∧
    (item (set_item (push (emptyStore : Store Nat) 3) 0 9) 0 = 9 ∧
      count (set_item (push (emptyStore : Store Nat) 3) 0 9)
        = count (push (emptyStore : Store Nat) 3) ∧
      ∀ j, j ≠ 0 → item (set_item (push (emptyStore : Store Nat) 3) 0 9) j
        = item (push (emptyStore : Store Nat) 3) j) :=
  ⟨by decide, claim_C10_set_item_frame (push emptyStore 3) 0 9 (by decide)⟩

end StorageVec
